import Mathlib

/-!
Verification development for the Textract/A2I handwritten-forms notebook
(`textract-hand-written-a2i-forms.ipynb`).  The notebook's own logic —
projecting the Textract response into a header table and a line-item table,
writing/reloading them as CSV, merging human corrections by synthetic
positional keys, and persisting merged rows into a fresh DynamoDB table —
is embedded shallowly below, and the spec's testable properties are proved
or refuted against that embedding.
-/

/-- Python `str(...)` applied to an optional value as the notebook does with
`str(x.get(key))`: `None` prints as the literal string `"None"`, a string
prints as itself. -/
def strOfOpt : Option String → String
  | none => "None"
  | some s => s

/-- Python whitespace characters recognised by `str.rstrip()` (ASCII range). -/
def isPySpace (c : Char) : Bool :=
  c = ' ' || c = '\t' || c = '\n' || c = '\r' || c = '\x0b' || c = '\x0c'

/-- Drop trailing Python whitespace from a character list. -/
def rstripChars (l : List Char) : List Char :=
  (l.reverse.dropWhile isPySpace).reverse

/-- Python `s.rstrip()`. -/
def pyRstrip (s : String) : String :=
  String.mk (rstripChars s.toList)

/-- A Textract table as traversed by the notebook: a grid of cell texts
(`cell.text` for each cell of each `table.rows` row). -/
structure TxTable where
  rows : List (List String)
deriving DecidableEq

/-- The analysis response as the notebook consumes it: the ordered tables of
the (single) page and the ordered form field pairs (`field.key` text,
`field.value` text) of `page.form.fields`. -/
structure TxDoc where
  tables : List TxTable
  fields : List (String × String)
deriving DecidableEq

/-- The form-to-csv cell: for each field pair one csv row
`[str(field.key) + " " + str(field.value)]`, appended in detection order. -/
def formRows (d : TxDoc) : List (List String) :=
  d.fields.foldl (fun acc kv => acc ++ [[kv.1 ++ " " ++ kv.2]]) []

/-- The inner loop of the table-to-csv cell: `csvrow = []`, then for each cell
`if cell.text: csvrow.append(cell.text.rstrip())`. -/
def buildCsvRow (cells : List String) : List String :=
  cells.foldl (fun acc c => if c ≠ "" then acc ++ [pyRstrip c] else acc) []

/-- The table-to-csv cell: one csv row written per row of the selected table. -/
def tabwriterRows (t : TxTable) : List (List String) :=
  t.rows.foldl (fun acc r => acc ++ [buildCsvRow r]) []

/-- After `for table in page.tables` the loop variable `table` holds the last
table encountered during traversal; the table-to-csv cell reads it. -/
def selectedTable (d : TxDoc) : Option TxTable :=
  d.tables.getLast?

/-- The line-item projection of the whole response: the table-to-csv cell
applied to the table left in the loop variable (none when no table exists,
in which case the notebook cell would fail on an unbound name). -/
def lineItemRows (d : TxDoc) : Option (List (List String)) :=
  (selectedTable d).map tabwriterRows

/-- `csv.writer` with `QUOTE_MINIMAL`: a field needs quoting when it contains
the delimiter, the quote character, or a line break. -/
def needsQuote (f : List Char) : Bool :=
  f.any (fun c => c = ',' || c = '"' || c = '\n' || c = '\r')

/-- Quote-escaping inside a quoted csv field: each `"` is doubled. -/
def escQ : List Char → List Char
  | [] => []
  | c :: cs => if c = '"' then '"' :: '"' :: escQ cs else c :: escQ cs

/-- One csv field as `csv.writer` emits it under `QUOTE_MINIMAL`. -/
def wrField (f : List Char) : List Char :=
  if needsQuote f then '"' :: (escQ f ++ ['"']) else f

/-- Plain joining of the quoted fields with the `,` delimiter. -/
def wrFieldsChars : List (List Char) → List Char
  | [] => []
  | [f] => wrField f
  | f :: r => wrField f ++ ',' :: wrFieldsChars r

/-- One csv record as `csv.writer` emits it: fields joined with `,`, except
that a record consisting of exactly one empty field is written as a quoted
empty field `""` (CPython special-cases this so the record is not a blank
line). -/
def wrLineChars (r : List (List Char)) : List Char :=
  if r = [[]] then ['"', '"'] else wrFieldsChars r

/-- One csv record over string fields. -/
def wrLineS (r : List String) : List Char :=
  wrLineChars (r.map String.toList)

/-- The whole csv text: each record followed by the writer's default line
terminator `\r\n`. -/
def writeCsvChars : List (List String) → List Char
  | [] => []
  | r :: rest => wrLineS r ++ '\r' :: '\n' :: writeCsvChars rest

/-- The csv file content produced for a list of records. -/
def writeCsv (rows : List (List String)) : String :=
  String.mk (writeCsvChars rows)

/-- The csv tokeniser of `pandas.read_csv` (default dialect) as a single-pass
state machine over the character stream.  `inQ` is the inside-quotes state,
`seen` whether the current record has any content (a blank line has none and
is skipped, per `skip_blank_lines=True`), `cur` the current field (reversed),
`row` the finished fields of the current record, `acc` the finished records.
Inside quotes, `""` is an escaped quote, any other character — including
line breaks — is field content, and an unescaped quote ends the quoted
section.  Outside quotes, a quote at field start opens a quoted section, `,`
finishes a field, `\n` and `\r` each terminate the record (so a `\r\n`
pair yields one record plus one skipped blank record), and a pending record
is flushed at end of input. -/
def parseCsvGo (inQ seen : Bool) (cur : List Char) (row : List (List Char))
    (acc : List (List (List Char))) : List Char → List (List (List Char))
  | [] => if seen then acc ++ [row ++ [cur.reverse]] else acc
  | c :: cs =>
    if inQ then
      if c = '"' then
        match cs with
        | [] => acc ++ [row ++ [cur.reverse]]
        | c2 :: cs2 =>
          if c2 = '"' then parseCsvGo true true ('"' :: cur) row acc cs2
          else parseCsvGo false true cur row acc (c2 :: cs2)
      else parseCsvGo true true (c :: cur) row acc cs
    else
      if c = '"' ∧ cur = [] then parseCsvGo true true cur row acc cs
      else if c = ',' then parseCsvGo false true [] (row ++ [cur.reverse]) acc cs
      else if c = '\n' ∨ c = '\r' then
        (if seen then parseCsvGo false false [] [] (acc ++ [row ++ [cur.reverse]]) cs
         else parseCsvGo false false [] [] acc cs)
      else parseCsvGo false true (c :: cur) row acc cs

/-- Raw csv parse of a file as `pandas.read_csv` tokenises it. -/
def parseCsvRaw (s : String) : List (List String) :=
  (parseCsvGo false false [] [] [] s.toList).map (List.map String.mk)

/-- The `pandas.read_csv` default missing-value tokens: a field equal to one
of these is loaded as NaN rather than as its string content. -/
def naValues : List String :=
  ["", "#N/A", "#N/A N/A", "#NA", "-1.#IND", "-1.#INF", "-1.#QNAN", "-NaN",
   "-nan", "1.#IND", "1.#QNAN", "<NA>", "N/A", "NA", "NULL", "NaN", "None",
   "n/a", "nan", "null"]

/-- Missing-value conversion applied to each loaded data field. -/
def naConvert (f : String) : Option String :=
  if f ∈ naValues then none else some f

/-- Reload of the header csv (`header=None`): every line is a data row. -/
def readForm (s : String) : List (List (Option String)) :=
  (parseCsvRaw s).map (List.map naConvert)

/-- Reload of the line-item csv (`header=0`): the first line becomes the
column labels, the remaining lines the data rows (none when the file has no
parsed lines, where `read_csv` errors out). -/
def readTab (s : String) : Option (List String × List (List (Option String))) :=
  match parseCsvRaw s with
  | [] => none
  | h :: t => some (h, t.map (List.map naConvert))

/-- The human answer content (`i['answerContent']`): a finite map from the
synthetic field names of the UI template to submitted strings; Python
`x.get(k)` is `List.lookup k x` on it. -/
abbrev AnsMap := List (String × String)

/-- An original line-item row of `df_tab`: the five domain columns, each
possibly NaN/None after the csv reload. -/
structure TabRow where
  startDate : Option String
  endDate : Option String
  empName : Option String
  posHeld : Option String
  resLeave : Option String
deriving DecidableEq

/-- A `df_tab` row after the correction merge loop: the original columns plus
the six corrected columns the loop assigns (always strings, because each is
`str(x.get(...))`). -/
structure MergedTabRow where
  orig : TabRow
  trueStartDate : String
  trueEndDate : String
  trueEmpName : String
  truePosHeld : String
  trueResLeave : String
  changeComments : String
deriving DecidableEq

/-- One iteration of the `df_tab` merge loop at row index `j`:
`df_tab.at[j, col] = str(x.get(colkey + str(j+1)))` for the six corrected
columns; the original columns are untouched. -/
def mergeTabRow (x : AnsMap) (j : Nat) (r : TabRow) : MergedTabRow :=
  { orig := r
    trueStartDate := strOfOpt (List.lookup ("TrueStartDate" ++ Nat.repr (j + 1)) x)
    trueEndDate := strOfOpt (List.lookup ("TrueEndDate" ++ Nat.repr (j + 1)) x)
    trueEmpName := strOfOpt (List.lookup ("TrueEmpName" ++ Nat.repr (j + 1)) x)
    truePosHeld := strOfOpt (List.lookup ("TruePosHeld" ++ Nat.repr (j + 1)) x)
    trueResLeave := strOfOpt (List.lookup ("TrueResLeave" ++ Nat.repr (j + 1)) x)
    changeComments := strOfOpt (List.lookup ("Change Reason" ++ Nat.repr (j + 1)) x) }

/-- An original header row of `df_form` (single `FormHeader` column). -/
structure FormRow where
  formHeader : Option String
deriving DecidableEq

/-- A `df_form` row after the correction merge loop. -/
structure MergedFormRow where
  orig : FormRow
  trueHeader : String
  comments : String
deriving DecidableEq

/-- One iteration of the `df_form` merge loop at row index `j`. -/
def mergeFormRow (x : AnsMap) (j : Nat) (r : FormRow) : MergedFormRow :=
  { orig := r
    trueHeader := strOfOpt (List.lookup ("TrueHdr" ++ Nat.repr (j + 1)) x)
    comments := strOfOpt (List.lookup ("Comments" ++ Nat.repr (j + 1)) x) }

/-- Map a function of the running row index over a list, starting at `i`. -/
def mapIdxFrom (f : Nat → α → β) (i : Nat) : List α → List β
  | [] => []
  | a :: l => f i a :: mapIdxFrom f (i + 1) l

/-- The `df_tab` merge loop `for j in range(0, len(df_tab))`. -/
def mergeTab (x : AnsMap) (rows : List TabRow) : List MergedTabRow :=
  mapIdxFrom (mergeTabRow x) 0 rows

/-- The `df_form` merge loop `for j in range(0, len(df_form))`. -/
def mergeForm (x : AnsMap) (rows : List FormRow) : List MergedFormRow :=
  mapIdxFrom (mergeFormRow x) 0 rows

/-- A merged value is either the submitted answer under its synthetic key or
the explicit absent marker the code produces for a missing key. -/
def presentOrMarker (x : AnsMap) (k : String) (v : String) : Prop :=
  (∃ s, List.lookup k x = some s ∧ v = s) ∨ (List.lookup k x = none ∧ v = "None")

/-- A row of the joined frame `df_doc = df_form.join(df_tab, how='outer')`
after `where(notnull, None)`: all fourteen columns, each possibly None. -/
structure DocRow where
  formHeader : Option String
  trueHeader : Option String
  comments : Option String
  startDate : Option String
  endDate : Option String
  empName : Option String
  posHeld : Option String
  resLeave : Option String
  trueStartDate : Option String
  trueEndDate : Option String
  trueEmpName : Option String
  truePosHeld : Option String
  trueResLeave : Option String
  changeComments : Option String
deriving DecidableEq

/-- The outer join of the two merged frames on their shared 0-based range
index: row `i` combines the `i`-th row of each side when it exists, None
columns otherwise. -/
def joinOuter (fs : List MergedFormRow) (ts : List MergedTabRow) : List DocRow :=
  (List.range (max fs.length ts.length)).map (fun i =>
    { formHeader := (fs.get? i).bind (fun f => f.orig.formHeader)
      trueHeader := (fs.get? i).map (fun f => f.trueHeader)
      comments := (fs.get? i).map (fun f => f.comments)
      startDate := (ts.get? i).bind (fun t => t.orig.startDate)
      endDate := (ts.get? i).bind (fun t => t.orig.endDate)
      empName := (ts.get? i).bind (fun t => t.orig.empName)
      posHeld := (ts.get? i).bind (fun t => t.orig.posHeld)
      resLeave := (ts.get? i).bind (fun t => t.orig.resLeave)
      trueStartDate := (ts.get? i).map (fun t => t.trueStartDate)
      trueEndDate := (ts.get? i).map (fun t => t.trueEndDate)
      trueEmpName := (ts.get? i).map (fun t => t.trueEmpName)
      truePosHeld := (ts.get? i).map (fun t => t.truePosHeld)
      trueResLeave := (ts.get? i).map (fun t => t.trueResLeave)
      changeComments := (ts.get? i).map (fun t => t.changeComments) })

/-- One DynamoDB item as the `put_item` loop builds it: the integer key
`line_nr` from `df_doc.iterrows()` and every other attribute passed through
Python `str(...)`. -/
structure DbItem where
  line_nr : Nat
  orig_hdr : String
  true_hdr : String
  comments : String
  start_date : String
  end_date : String
  emp_name : String
  position_held : String
  reason_for_leaving : String
  true_start_date : String
  true_end_date : String
  true_emp_name : String
  true_position_held : String
  true_reason_for_leaving : String
  change_comments : String
deriving DecidableEq

/-- The item written for the row at index `idx` of `df_doc`. -/
def mkItem (idx : Nat) (r : DocRow) : DbItem :=
  { line_nr := idx
    orig_hdr := strOfOpt r.formHeader
    true_hdr := strOfOpt r.trueHeader
    comments := strOfOpt r.comments
    start_date := strOfOpt r.startDate
    end_date := strOfOpt r.endDate
    emp_name := strOfOpt r.empName
    position_held := strOfOpt r.posHeld
    reason_for_leaving := strOfOpt r.resLeave
    true_start_date := strOfOpt r.trueStartDate
    true_end_date := strOfOpt r.trueEndDate
    true_emp_name := strOfOpt r.trueEmpName
    true_position_held := strOfOpt r.truePosHeld
    true_reason_for_leaving := strOfOpt r.trueResLeave
    change_comments := strOfOpt r.changeComments }

/-- The `put_item` loop over `df_doc.iterrows()`: one item per row, keyed by
the row's 0-based range-index position. -/
def persistItems (rows : List DocRow) : List DbItem :=
  mapIdxFrom mkItem 0 rows

/-- The output table name `"emp_hist-" + str(uuid.uuid4())` for a run whose
uuid rendered as `u`. -/
def tableName (u : String) : String :=
  "emp_hist-" ++ u

/-- DynamoDB operations the persistence stage can issue. -/
inductive DbAction where
  | createTable (name : String) (keyAttr : String)
  | putItem (name : String) (it : DbItem)
deriving DecidableEq

/-- The table a DynamoDB operation targets. -/
def dbTarget : DbAction → String
  | DbAction.createTable n _ => n
  | DbAction.putItem n _ => n

/-- The persistence stage of one run: create the fresh table keyed by
`line_nr`, then put one item per merged row into that same table. -/
def persistRun (u : String) (rows : List DocRow) : List DbAction :=
  DbAction.createTable (tableName u) "line_nr" ::
    (persistItems rows).map (fun it => DbAction.putItem (tableName u) it)

/-- Externally visible steps of the dispatch / review-wait code. -/
inductive A2IAction where
  | describeFlow
  | sleepSecs (n : Nat)
  | startLoop
  | describeLoop
  | fetchOutput (uri : String)
  | raiseTimeout
deriving DecidableEq

/-- The flow-activation wait from iteration `i` with `b` budgeted attempts
left: describe the flow definition, stop when its status is `Active`,
otherwise sleep 2 seconds and retry. -/
def flowWaitFrom (statusAt : Nat → String) (i : Nat) : Nat → List A2IAction
  | 0 => []
  | b + 1 =>
    A2IAction.describeFlow ::
      (if statusAt i = "Active" then []
       else A2IAction.sleepSecs 2 :: flowWaitFrom statusAt (i + 1) b)

/-- The notebook's `for x in range(60)` flow-activation wait. -/
def flowWait (statusAt : Nat → String) : List A2IAction :=
  flowWaitFrom statusAt 0 60

/-- The dispatch stage: the activation wait runs, and then — whatever its
outcome — the cell that calls `start_human_loop` executes. -/
def dispatchRun (statusAt : Nat → String) : List A2IAction :=
  flowWait statusAt ++ [A2IAction.startLoop]

/-- A `describe_human_loop` response: its status and output location. -/
structure LoopResp where
  status : String
  outputUri : String
deriving DecidableEq

/-- The completion-check cell: `completed_human_loops = []`, one describe
call, and the response is appended only when the status is `Completed`. -/
def completionCheck (r : LoopResp) : List LoopResp :=
  if r.status = "Completed" then [r] else []

/-- The full completion stage of a run: the actions it performs and the
completed-loop list it leaves behind. -/
def completionStage (r : LoopResp) : List A2IAction × List LoopResp :=
  ([A2IAction.describeLoop], completionCheck r)

/-- The output-fetch cell: one get-object per completed loop. -/
def fetchStage (completed : List LoopResp) : List A2IAction :=
  completed.map (fun r => A2IAction.fetchOutput r.outputUri)

/-- A flow-status sequence that never becomes `Active`. -/
def pendingSeq : Nat → String := fun _ => "Pending"

/-- A human-loop response that is not yet complete. -/
def inProgressResp : LoopResp :=
  { status := "InProgress", outputUri := "s3://bucket/a2i-results/out.json" }

/-- The spec's merge scenario answer
`{"TrueEmpName1": "Acme Corp", "TrueEmpName2": "Global Inc"}`. -/
def scenarioAns : AnsMap :=
  [("TrueEmpName1", "Acme Corp"), ("TrueEmpName2", "Global Inc")]

/-- The spec's merge scenario original rows `[["Acme","Clerk"],["","Manager"]]`
as loaded line-item rows: employer name and position held, the second row's
employer cell missing. -/
def scenarioRows : List TabRow :=
  [⟨none, none, some "Acme", some "Clerk", none⟩,
   ⟨none, none, none, some "Manager", none⟩]

theorem foldl_append_singleton (f : α → β) (l : List α) (init : List β) :
    l.foldl (fun acc x => acc ++ [f x]) init = init ++ l.map f := by
  induction l generalizing init with
  | nil => simp
  | cons a t ih => simp [List.foldl_cons, ih]

theorem buildCsvRow_eq (cells : List String) :
    buildCsvRow cells = (cells.filter (fun c => c ≠ "")).map pyRstrip := by
  have H : ∀ (l : List String) (init : List String),
      l.foldl (fun acc c => if c ≠ "" then acc ++ [pyRstrip c] else acc) init =
        init ++ (l.filter (fun c => c ≠ "")).map pyRstrip := by
    intro l
    induction l with
    | nil => intro init; simp
    | cons a t ih =>
      intro init
      rw [List.foldl_cons, ih, List.filter_cons]
      by_cases h : a = ""
      · simp [h]
      · simp [h]
  simpa [buildCsvRow] using H cells []

theorem tabwriterRows_eq (t : TxTable) :
    tabwriterRows t = t.rows.map buildCsvRow := by
  simpa using foldl_append_singleton buildCsvRow t.rows []

theorem formRows_eq (d : TxDoc) :
    formRows d = d.fields.map (fun kv => [kv.1 ++ " " ++ kv.2]) := by
  simpa using foldl_append_singleton (fun kv : String × String => [kv.1 ++ " " ++ kv.2]) d.fields []

theorem dropWhile_idem (p : α → Bool) (l : List α) :
    List.dropWhile p (List.dropWhile p l) = List.dropWhile p l := by
  induction l with
  | nil => rfl
  | cons c t ih =>
    by_cases h : p c
    · simp [List.dropWhile_cons, h, ih]
    · simp [List.dropWhile_cons, h]

theorem rstripChars_idem (l : List Char) :
    rstripChars (rstripChars l) = rstripChars l := by
  unfold rstripChars
  simp [dropWhile_idem]

theorem toList_mk (l : List Char) : (String.mk l).toList = l := rfl

theorem pyRstrip_idem (s : String) : pyRstrip (pyRstrip s) = pyRstrip s := by
  unfold pyRstrip
  rw [toList_mk, rstripChars_idem]

/-- Claim C1: for every analysis response containing at least one table, the
line-item projection operates on the single selected table — the last table
encountered during traversal — and emits exactly one line-item row per table
row; within each row empty cells are dropped rather than emitted as empty
fields, and trailing whitespace is trimmed from each emitted cell's text. -/
theorem C1_line_item_projection (d : TxDoc) (h : d.tables ≠ []) :
    ∃ t, selectedTable d = some t ∧ d.tables.getLast? = some t ∧
      lineItemRows d = some (tabwriterRows t) ∧
      tabwriterRows t = t.rows.map buildCsvRow ∧
      (tabwriterRows t).length = t.rows.length ∧
      (∀ r ∈ t.rows, buildCsvRow r = (r.filter (fun c => c ≠ "")).map pyRstrip) ∧
      (∀ r ∈ t.rows, ∀ s ∈ buildCsvRow r, pyRstrip s = s) := by
  have hsome : (d.tables.getLast?).isSome := by
    cases e : d.tables.getLast? with
    | none => exact absurd (List.getLast?_eq_none_iff.mp e) h
    | some t => rfl
  obtain ⟨t, ht⟩ := Option.isSome_iff_exists.mp hsome
  refine ⟨t, ht, ht, ?_, tabwriterRows_eq t, ?_, ?_, ?_⟩
  · simp [lineItemRows, selectedTable, ht]
  · rw [tabwriterRows_eq]; simp
  · intro r _; exact buildCsvRow_eq r
  · intro r _ s hs
    rw [buildCsvRow_eq] at hs
    obtain ⟨c, _, hc⟩ := List.mem_map.mp hs
    rw [← hc, pyRstrip_idem]

/-- Claim C1 witness: a concrete document with one table whose second row has
an empty cell and whose first cell carries trailing whitespace. -/
theorem C1_line_item_projection_witness :
    (⟨[⟨[["a ", ""], ["b"]]⟩], []⟩ : TxDoc).tables ≠ [] ∧
    lineItemRows ⟨[⟨[["a ", ""], ["b"]]⟩], []⟩ = some [["a"], ["b"]] := by
  obtain ⟨t, h1, -, h3, -⟩ :=
    C1_line_item_projection ⟨[⟨[["a ", ""], ["b"]]⟩], []⟩ (by decide)
  have ht : t = ⟨[["a ", ""], ["b"]]⟩ := by
    have : some t = some (⟨[["a ", ""], ["b"]]⟩ : TxTable) := by
      rw [← h1]; decide
    exact Option.some_injective _ this.symm ▸ rfl
  refine ⟨by decide, ?_⟩
  rw [h3, ht]
  decide

/-- Claim C2: for every analysis response containing at least one field pair,
the header projection produces exactly one HeaderRecord per field pair, in
detection order, whose text is the key text and the value text joined by a
single space with no trimming. -/
theorem C2_header_projection (d : TxDoc) (_h : d.fields ≠ []) :
    formRows d = d.fields.map (fun kv => [kv.1 ++ " " ++ kv.2]) ∧
    (formRows d).length = d.fields.length ∧
    ∀ i, (formRows d).get? i = (d.fields.get? i).map (fun kv => [kv.1 ++ " " ++ kv.2]) := by
  refine ⟨formRows_eq d, ?_, ?_⟩
  · rw [formRows_eq]; simp
  · intro i; rw [formRows_eq]; simp

/-- Claim C2 witness: the field pair `("Name", "John")` projects to the single
header record `"Name John"`. -/
theorem C2_header_projection_witness :
    (⟨[], [("Name", "John")]⟩ : TxDoc).fields ≠ [] ∧
    formRows ⟨[], [("Name", "John")]⟩ = [["Name John"]] := by
  have h := C2_header_projection ⟨[], [("Name", "John")]⟩ (by decide)
  refine ⟨by decide, ?_⟩
  rw [h.1]
  decide
example : writeCsv [["a", "b"], ["c,d"]] = "a,b\r\n\"c,d\"\r\n" := by decide
example : writeCsv [[""]] = "\"\"\r\n" := by decide
example : writeCsv [["a", ""]] = "a,\r\n" := by decide
example : parseCsvRaw "a,b\r\n\"c,d\"\r\n" = [["a", "b"], ["c,d"]] := by decide
example : parseCsvRaw "a,b\r\n\r\nx\r\n" = [["a", "b"], ["x"]] := by decide
example : parseCsvRaw "a,\"b\"\"c\",d\r\n" = [["a", "b\"c", "d"]] := by decide
example : parseCsvRaw "\"a\nb\",c\r\n" = [["a\nb", "c"]] := by decide
example : parseCsvRaw "\"\"\r\n" = [[""]] := by decide
example : readForm "Name John\r\n" = [[some "Name John"]] := by decide
example : readTab "h1,h2\r\na,NA\r\n" = some (["h1", "h2"], [[some "a", none]]) := by
  decide
example : buildCsvRow ["a ", "", "b"] = ["a", "b"] := by decide
example : formRows ⟨[], [("Name", "John")]⟩ = [["Name John"]] := by decide
example : lineItemRows ⟨[⟨[["x"]]⟩, ⟨[["y", " z "], ["", "w"]]⟩], []⟩ =
    some [["y", " z"], ["w"]] := by decide

theorem mapIdxFrom_length (f : Nat → α → β) (i : Nat) (l : List α) :
    (mapIdxFrom f i l).length = l.length := by
  induction l generalizing i with
  | nil => rfl
  | cons a t ih => simp [mapIdxFrom, ih]

theorem mapIdxFrom_get? (f : Nat → α → β) (i j : Nat) (l : List α) :
    (mapIdxFrom f i l).get? j = (l.get? j).map (f (i + j)) := by
  induction l generalizing i j with
  | nil => simp [mapIdxFrom]
  | cons a t ih =>
    cases j with
    | zero => simp [mapIdxFrom]
    | succ j =>
      simp only [mapIdxFrom, List.get?_cons_succ, ih]
      have e : i + 1 + j = i + (j + 1) := by omega
      rw [e]

theorem strOfOpt_presentOrMarker (x : AnsMap) (k : String) :
    presentOrMarker x k (strOfOpt (List.lookup k x)) := by
  cases h : List.lookup k x with
  | none => exact Or.inr ⟨h, rfl⟩
  | some s => exact Or.inl ⟨s, h, rfl⟩

/-- Claim C3: the merge attaches corrections to rows purely by 1-based row
position using the synthetic key `TrueEmpName<j+1>`: the corrected employer
name stored at row `j` is the answer lookup for that key, independently of
the row's original cell content. -/
theorem C3_positional_merge (x : AnsMap) (rows : List TabRow) (j : Nat)
    (h : j < rows.length) :
    ∃ m, (mergeTab x rows).get? j = some m ∧
      m.trueEmpName = strOfOpt (List.lookup ("TrueEmpName" ++ Nat.repr (j + 1)) x) ∧
      ∀ r : TabRow, (mergeTabRow x j r).trueEmpName = m.trueEmpName := by
  refine ⟨mergeTabRow x j (rows.get ⟨j, h⟩), ?_, rfl, fun r => rfl⟩
  rw [mergeTab, mapIdxFrom_get?, List.get?_eq_get h]
  simp

/-- Claim C3 witness: the spec scenario — rows `[["Acme","Clerk"],
["","Manager"]]` with answer `{"TrueEmpName1": "Acme Corp", "TrueEmpName2":
"Global Inc"}` merge to employer corrections `"Acme Corp"` and `"Global
Inc"` despite the missing cell in row 2. -/
theorem C3_positional_merge_witness :
    0 < scenarioRows.length ∧ 1 < scenarioRows.length ∧
    (∃ m, (mergeTab scenarioAns scenarioRows).get? 0 = some m ∧
      m.trueEmpName = "Acme Corp") ∧
    (∃ m, (mergeTab scenarioAns scenarioRows).get? 1 = some m ∧
      m.trueEmpName = "Global Inc") := by
  obtain ⟨m0, h0, e0, -⟩ := C3_positional_merge scenarioAns scenarioRows 0 (by decide)
  obtain ⟨m1, h1, e1, -⟩ := C3_positional_merge scenarioAns scenarioRows 1 (by decide)
  refine ⟨by decide, by decide, ⟨m0, h0, ?_⟩, ⟨m1, h1, ?_⟩⟩
  · rw [e0]; decide
  · rw [e1]; decide

/-- Claim C4: the merge is total over all rows of both original tables: for
every correction answer — including one missing some or all synthetic keys —
every row is merged without any lookup error, and each correctable field
holds either the submitted value or the explicit absent marker. -/
theorem C4_merge_totality (x : AnsMap) (frows : List FormRow) (trows : List TabRow) :
    (mergeForm x frows).length = frows.length ∧
    (mergeTab x trows).length = trows.length ∧
    (∀ j, j < frows.length → ∃ m, (mergeForm x frows).get? j = some m ∧
      presentOrMarker x ("TrueHdr" ++ Nat.repr (j + 1)) m.trueHeader ∧
      presentOrMarker x ("Comments" ++ Nat.repr (j + 1)) m.comments) ∧
    (∀ j, j < trows.length → ∃ m, (mergeTab x trows).get? j = some m ∧
      presentOrMarker x ("TrueStartDate" ++ Nat.repr (j + 1)) m.trueStartDate ∧
      presentOrMarker x ("TrueEndDate" ++ Nat.repr (j + 1)) m.trueEndDate ∧
      presentOrMarker x ("TrueEmpName" ++ Nat.repr (j + 1)) m.trueEmpName ∧
      presentOrMarker x ("TruePosHeld" ++ Nat.repr (j + 1)) m.truePosHeld ∧
      presentOrMarker x ("TrueResLeave" ++ Nat.repr (j + 1)) m.trueResLeave ∧
      presentOrMarker x ("Change Reason" ++ Nat.repr (j + 1)) m.changeComments) := by
  refine ⟨mapIdxFrom_length _ 0 frows, mapIdxFrom_length _ 0 trows, ?_, ?_⟩
  · intro j hj
    refine ⟨mergeFormRow x j (frows.get ⟨j, hj⟩), ?_, ?_, ?_⟩
    · rw [mergeForm, mapIdxFrom_get?, List.get?_eq_get hj]; simp
    · exact strOfOpt_presentOrMarker x _
    · exact strOfOpt_presentOrMarker x _
  · intro j hj
    refine ⟨mergeTabRow x j (trows.get ⟨j, hj⟩), ?_, ?_, ?_, ?_, ?_, ?_, ?_⟩
    · rw [mergeTab, mapIdxFrom_get?, List.get?_eq_get hj]; simp
    all_goals exact strOfOpt_presentOrMarker x _

/-- Claim C4 witness: an empty correction answer (every synthetic key
missing) still merges a one-row header table and a one-row line-item table
completely, leaving the absent marker everywhere. -/
theorem C4_merge_totality_witness :
    (mergeForm [] [⟨some "Name John"⟩]).length = 1 ∧
    (mergeTab [] [⟨none, none, some "Acme", some "Clerk", none⟩]).length = 1 ∧
    (∃ m, (mergeForm [] [⟨some "Name John"⟩]).get? 0 = some m ∧
      presentOrMarker [] "TrueHdr1" m.trueHeader ∧
      presentOrMarker [] "Comments1" m.comments) ∧
    (∃ m, (mergeTab [] [⟨none, none, some "Acme", some "Clerk", none⟩]).get? 0 = some m ∧
      presentOrMarker [] "TrueEmpName1" m.trueEmpName) := by
  obtain ⟨l1, l2, hf, ht⟩ :=
    C4_merge_totality [] [⟨some "Name John"⟩]
      [⟨none, none, some "Acme", some "Clerk", none⟩]
  obtain ⟨m, hm, p1, p2⟩ := hf 0 (by decide)
  obtain ⟨m2, hm2, -, -, q3, -⟩ := ht 0 (by decide)
  have e1 : ("TrueHdr" ++ Nat.repr (0 + 1)) = "TrueHdr1" := by decide
  have e2 : ("Comments" ++ Nat.repr (0 + 1)) = "Comments1" := by decide
  have e3 : ("TrueEmpName" ++ Nat.repr (0 + 1)) = "TrueEmpName1" := by decide
  rw [e1] at p1
  rw [e2] at p2
  rw [e3] at q3
  exact ⟨l1, l2, ⟨m, hm, p1, p2⟩, ⟨m2, hm2, q3⟩⟩

/-- Claim C5 counterexample: for a task that never reports `Completed`, the
completion stage performs exactly one status query — not an `N`-attempt poll
(e.g. not 3 attempts) — raises no timeout, and leaves the completed list
empty.  The claimed bounded poller with a `TimeoutError` does not exist in
the code. -/
theorem C5_counterexample :
    (completionStage inProgressResp).1 = [A2IAction.describeLoop] ∧
    A2IAction.raiseTimeout ∉ (completionStage inProgressResp).1 ∧
    (completionStage inProgressResp).1.count A2IAction.describeLoop = 1 ∧
    (completionStage inProgressResp).1.count A2IAction.describeLoop ≠ 3 ∧
    (completionStage inProgressResp).2 = [] := by decide

/-- Claim C5 (amended): the completion check is a single status query with no
sleep, no retry and no `TimeoutError`; when the task does not report
`Completed` it is simply not added to the completed list, so no output is
fetched and nothing downstream consumes it in that run. -/
theorem C5_single_status_check (r : LoopResp) (h : r.status ≠ "Completed") :
    completionStage r = ([A2IAction.describeLoop], []) ∧
    A2IAction.raiseTimeout ∉ (completionStage r).1 ∧
    (∀ n, A2IAction.sleepSecs n ∉ (completionStage r).1) ∧
    fetchStage (completionStage r).2 = [] := by
  have hc : completionCheck r = [] := by simp [completionCheck, h]
  refine ⟨?_, ?_, ?_, ?_⟩
  · simp [completionStage, hc]
  · simp [completionStage]
  · intro n; simp [completionStage]
  · simp [completionStage, hc, fetchStage]

/-- Claim C5 witness: the in-progress response instantiates the amended
single-check behavior. -/
theorem C5_single_status_check_witness :
    inProgressResp.status ≠ "Completed" ∧
    completionStage inProgressResp = ([A2IAction.describeLoop], []) ∧
    fetchStage (completionStage inProgressResp).2 = [] := by
  have h := C5_single_status_check inProgressResp (by decide)
  exact ⟨by decide, h.1, h.2.2.2⟩

theorem persistItems_line_nr (rows : List DocRow) :
    (persistItems rows).map (fun it => it.line_nr) = List.range rows.length := by
  rw [List.range_eq_range']
  have H : ∀ (i : Nat) (l : List DocRow),
      (mapIdxFrom mkItem i l).map (fun it => it.line_nr) = List.range' i l.length := by
    intro i l
    induction l generalizing i with
    | nil => rfl
    | cons a t ih => simp [mapIdxFrom, List.range'_succ, ih, mkItem]
  exact H 0 rows

/-- Claim C6: the persistence stage creates a fresh table keyed by the
integer `line_nr` attribute and writes exactly one item per merged row;
the item written at position `j` is keyed by `j` (keys are the range of the
merged length, hence unique and starting at 0) and every non-key attribute
is the string coercion of the row's value. -/
theorem C6_persistence (u : String) (fs : List MergedFormRow) (ts : List MergedTabRow) :
    ∃ puts, persistRun u (joinOuter fs ts) =
        DbAction.createTable (tableName u) "line_nr" :: puts ∧
      puts.length = (joinOuter fs ts).length ∧
      (∀ j, j < (joinOuter fs ts).length → ∃ r, (joinOuter fs ts).get? j = some r ∧
        puts.get? j = some (DbAction.putItem (tableName u) (mkItem j r))) ∧
      (persistItems (joinOuter fs ts)).map (fun it => it.line_nr) =
        List.range (joinOuter fs ts).length ∧
      ((persistItems (joinOuter fs ts)).map (fun it => it.line_nr)).Nodup := by
  refine ⟨(persistItems (joinOuter fs ts)).map
    (fun it => DbAction.putItem (tableName u) it), rfl, ?_, ?_, ?_, ?_⟩
  · rw [List.length_map, persistItems, mapIdxFrom_length]
  · intro j hj
    refine ⟨(joinOuter fs ts).get ⟨j, hj⟩, List.get?_eq_get hj, ?_⟩
    rw [List.get?_map, persistItems, mapIdxFrom_get?, List.get?_eq_get hj]
    simp
  · exact persistItems_line_nr _
  · rw [persistItems_line_nr]; exact List.nodup_range _

/-- Claim C6 witness: a single merged header row persists as one createTable
action plus one item keyed 0, with the string coercions applied. -/
theorem C6_persistence_witness :
    ∃ puts, persistRun "run-uuid" (joinOuter [⟨⟨some "Name John"⟩, "Jane", "ok"⟩] []) =
        DbAction.createTable "emp_hist-run-uuid" "line_nr" :: puts ∧
      puts.length = 1 := by
  obtain ⟨puts, h1, h2, -⟩ :=
    C6_persistence "run-uuid" [⟨⟨some "Name John"⟩, "Jane", "ok"⟩] []
  have e : tableName "run-uuid" = "emp_hist-run-uuid" := by decide
  have el : (joinOuter [⟨⟨some "Name John"⟩, "Jane", "ok"⟩] []).length = 1 := by decide
  rw [e] at h1
  rw [el] at h2
  exact ⟨puts, h1, h2⟩

theorem string_append_cancel_left {s a b : String} (h : s ++ a = s ++ b) : a = b := by
  cases s with | mk sd =>
  cases a with | mk ad =>
  cases b with | mk bd =>
  have hd : sd ++ ad = sd ++ bd := congrArg String.data h
  have hab := List.append_cancel_left hd
  rw [hab]

/-- Claim C8: the persistence stage is not idempotent: two runs carry
distinct per-run uuids, so their table names differ, each run's first action
creates its own table, and every operation of a run targets only that run's
fresh table — no run writes into an existing different table. -/
theorem C8_fresh_table_per_run (u1 u2 : String) (h : u1 ≠ u2)
    (rows1 rows2 : List DocRow) :
    tableName u1 ≠ tableName u2 ∧
    (persistRun u1 rows1).head? = some (DbAction.createTable (tableName u1) "line_nr") ∧
    (persistRun u2 rows2).head? = some (DbAction.createTable (tableName u2) "line_nr") ∧
    (∀ a ∈ persistRun u1 rows1, dbTarget a = tableName u1) ∧
    (∀ a ∈ persistRun u1 rows1, dbTarget a ≠ tableName u2) := by
  have htgt : ∀ (u : String) (rows : List DocRow),
      ∀ a ∈ persistRun u rows, dbTarget a = tableName u := by
    intro u rows a ha
    rcases List.mem_cons.mp ha with he | hm
    · rw [he]; rfl
    · obtain ⟨it, -, hit⟩ := List.mem_map.mp hm
      rw [← hit]; rfl
  have hne : tableName u1 ≠ tableName u2 :=
    fun he => h (string_append_cancel_left he)
  exact ⟨hne, rfl, rfl, htgt u1 rows1,
    fun a ha => by rw [htgt u1 rows1 a ha]; exact hne⟩

/-- Claim C8 witness: two concrete run uuids yield distinct table names and
each run targets only its own table. -/
theorem C8_fresh_table_per_run_witness :
    ("1a2b" : String) ≠ "3c4d" ∧ tableName "1a2b" ≠ tableName "3c4d" ∧
    (∀ a ∈ persistRun "1a2b" [], dbTarget a ≠ tableName "3c4d") := by
  have h := C8_fresh_table_per_run "1a2b" "3c4d" (by decide) [] []
  exact ⟨by decide, h.1, h.2.2.2.2⟩

theorem flowWaitFrom_count_le (statusAt : Nat → String) (b i : Nat) :
    (flowWaitFrom statusAt i b).count A2IAction.describeFlow ≤ b := by
  induction b generalizing i with
  | zero => simp [flowWaitFrom]
  | succ b ih =>
    by_cases h : statusAt i = "Active"
    · simp [flowWaitFrom, h, List.count_cons]
    · simp only [flowWaitFrom, if_neg h, List.count_cons]
      have hc := ih (i + 1)
      have e1 : (A2IAction.sleepSecs 2 == A2IAction.describeFlow) = false := by decide
      have e2 : (A2IAction.describeFlow == A2IAction.describeFlow) = true := by decide
      rw [e1, e2]
      simp
      omega

theorem flowWaitFrom_count_never (statusAt : Nat → String) (b i : Nat)
    (h : ∀ j, j < b → statusAt (i + j) ≠ "Active") :
    (flowWaitFrom statusAt i b).count A2IAction.describeFlow = b := by
  induction b generalizing i with
  | zero => simp [flowWaitFrom]
  | succ b ih =>
    have h0 : statusAt i ≠ "Active" := by
      have := h 0 (Nat.succ_pos b)
      simpa using this
    have hrest : ∀ j, j < b → statusAt (i + 1 + j) ≠ "Active" := by
      intro j hj
      have := h (j + 1) (by omega)
      have e : i + (j + 1) = i + 1 + j := by omega
      rw [e] at this
      exact this
    simp only [flowWaitFrom, if_neg h0, List.count_cons, ih (i + 1) hrest]
    have e1 : (A2IAction.sleepSecs 2 == A2IAction.describeFlow) = false := by decide
    have e2 : (A2IAction.describeFlow == A2IAction.describeFlow) = true := by decide
    rw [e1, e2]
    simp

theorem flowWaitFrom_count_first_active (statusAt : Nat → String) (b i k : Nat)
    (hk : k < b) (ha : statusAt (i + k) = "Active")
    (hbefore : ∀ j, j < k → statusAt (i + j) ≠ "Active") :
    (flowWaitFrom statusAt i b).count A2IAction.describeFlow = k + 1 := by
  induction b generalizing i k with
  | zero => omega
  | succ b ih =>
    cases k with
    | zero =>
      have h0 : statusAt i = "Active" := by simpa using ha
      simp [flowWaitFrom, h0]
    | succ k =>
      have h0 : statusAt i ≠ "Active" := by
        have := hbefore 0 (Nat.succ_pos k)
        simpa using this
      have ha' : statusAt (i + 1 + k) = "Active" := by
        have e : i + (k + 1) = i + 1 + k := by omega
        rw [e] at ha
        exact ha
      have hb' : ∀ j, j < k → statusAt (i + 1 + j) ≠ "Active" := by
        intro j hj
        have := hbefore (j + 1) (by omega)
        have e : i + (j + 1) = i + 1 + j := by omega
        rw [e] at this
        exact this
      simp only [flowWaitFrom, if_neg h0, List.count_cons,
        ih (i + 1) k (by omega) ha' hb']
      have e1 : (A2IAction.sleepSecs 2 == A2IAction.describeFlow) = false := by decide
      have e2 : (A2IAction.describeFlow == A2IAction.describeFlow) = true := by decide
      rw [e1, e2]
      simp

theorem flowWaitFrom_no_timeout (statusAt : Nat → String) (b i : Nat) :
    A2IAction.raiseTimeout ∉ flowWaitFrom statusAt i b := by
  induction b generalizing i with
  | zero => simp [flowWaitFrom]
  | succ b ih =>
    by_cases h : statusAt i = "Active"
    · simp [flowWaitFrom, h]
    · simp only [flowWaitFrom, if_neg h]
      intro hmem
      rcases List.mem_cons.mp hmem with hh | hmem2
      · exact absurd hh (by simp)
      · rcases List.mem_cons.mp hmem2 with hh | hmem3
        · exact absurd hh (by simp)
        · exact ih (i + 1) hmem3

theorem flowWaitFrom_sleep_interval (statusAt : Nat → String) (b i n : Nat)
    (h : A2IAction.sleepSecs n ∈ flowWaitFrom statusAt i b) : n = 2 := by
  induction b generalizing i with
  | zero => simp [flowWaitFrom] at h
  | succ b ih =>
    by_cases ha : statusAt i = "Active"
    · simp [flowWaitFrom, ha] at h
    · simp only [flowWaitFrom, if_neg ha] at h
      rcases List.mem_cons.mp h with hh | h2
      · exact absurd hh (by simp)
      · rcases List.mem_cons.mp h2 with hh | h3
        · exact (A2IAction.sleepSecs.injEq n 2).mp hh
        · exact ih (i + 1) h3

/-- Claim C9: the flow-activation wait polls the workflow status with a fixed
budget of at most 60 attempts and a fixed 2-second sleep between attempts;
it stops as soon as the status is `Active` (first active at attempt `k`
means exactly `k+1` queries), makes exactly 60 queries when the status never
becomes `Active`, never raises, and in every case the run proceeds to submit
the human-loop task. -/
theorem C9_flow_activation_wait (statusAt : Nat → String) :
    (flowWait statusAt).count A2IAction.describeFlow ≤ 60 ∧
    A2IAction.raiseTimeout ∉ flowWait statusAt ∧
    (∀ n, A2IAction.sleepSecs n ∈ flowWait statusAt → n = 2) ∧
    ((∀ i, i < 60 → statusAt i ≠ "Active") →
      (flowWait statusAt).count A2IAction.describeFlow = 60) ∧
    (∀ k, k < 60 → statusAt k = "Active" →
      (∀ i, i < k → statusAt i ≠ "Active") →
      (flowWait statusAt).count A2IAction.describeFlow = k + 1) ∧
    A2IAction.startLoop ∈ dispatchRun statusAt := by
  refine ⟨flowWaitFrom_count_le statusAt 60 0, flowWaitFrom_no_timeout statusAt 60 0,
    fun n h => flowWaitFrom_sleep_interval statusAt 60 0 n h, ?_, ?_, ?_⟩
  · intro h
    exact flowWaitFrom_count_never statusAt 60 0 (fun j hj => by
      simpa using h j hj)
  · intro k hk ha hb
    exact flowWaitFrom_count_first_active statusAt 60 0 k hk (by simpa using ha)
      (fun j hj => by simpa using hb j hj)
  · exact List.mem_append_right _ (List.mem_singleton.mpr rfl)

/-- Claim C9 witness: with a never-active status sequence the wait makes
exactly 60 queries and the task is still submitted; with a sequence first
active at attempt 3 the wait stops after 4 queries. -/
theorem C9_flow_activation_wait_witness :
    (flowWait pendingSeq).count A2IAction.describeFlow = 60 ∧
    A2IAction.startLoop ∈ dispatchRun pendingSeq ∧
    (flowWait (fun i => if i < 3 then "Pending" else "Active")).count
      A2IAction.describeFlow = 4 := by
  have h1 := C9_flow_activation_wait pendingSeq
  have h2 := C9_flow_activation_wait (fun i => if i < 3 then "Pending" else "Active")
  refine ⟨h1.2.2.2.1 (fun i _ => by simp [pendingSeq]), h1.2.2.2.2.2, ?_⟩
  exact h2.2.2.2.2.1 3 (by decide) (by decide) (by decide)

theorem joinOuter_get?_trueEmpName (fs : List MergedFormRow) (ts : List MergedTabRow)
    (j : Nat) (h : j < max fs.length ts.length) :
    ∃ r, (joinOuter fs ts).get? j = some r ∧
      r.trueEmpName = (ts.get? j).map (fun t => t.trueEmpName) := by
  unfold joinOuter
  rw [List.get?_map, List.get?_range h]
  exact ⟨_, rfl, rfl⟩

/-- Claim C10: the merged corrected value stored for each correctable field
is Python `str` applied to the answer lookup, so it is always a string: an
absent synthetic key stores the literal string `"None"` rather than a null,
and the persisted item's corresponding attribute carries exactly that
string for every row covered by the line-item table. -/
theorem C10_absent_key_stores_None (x : AnsMap) (frows : List FormRow)
    (trows : List TabRow) :
    (∀ j r, (mergeTabRow x j r).trueEmpName =
      strOfOpt (List.lookup ("TrueEmpName" ++ Nat.repr (j + 1)) x)) ∧
    (∀ j r, List.lookup ("TrueEmpName" ++ Nat.repr (j + 1)) x = none →
      (mergeTabRow x j r).trueEmpName = "None") ∧
    (∀ j r, List.lookup ("TrueHdr" ++ Nat.repr (j + 1)) x = none →
      (mergeFormRow x j r).trueHeader = "None") ∧
    (∀ j, j < trows.length → ∃ it,
      (persistItems (joinOuter (mergeForm x frows) (mergeTab x trows))).get? j =
        some it ∧
      it.true_emp_name = strOfOpt (List.lookup ("TrueEmpName" ++ Nat.repr (j + 1)) x)) := by
  refine ⟨fun j r => rfl, ?_, ?_, ?_⟩
  · intro j r hnone
    show strOfOpt (List.lookup ("TrueEmpName" ++ Nat.repr (j + 1)) x) = "None"
    rw [hnone]
    rfl
  · intro j r hnone
    show strOfOpt (List.lookup ("TrueHdr" ++ Nat.repr (j + 1)) x) = "None"
    rw [hnone]
    rfl
  · intro j hj
    have hn : j < max (mergeForm x frows).length (mergeTab x trows).length := by
      rw [mergeTab, mapIdxFrom_length]
      omega
    obtain ⟨r, hr, hre⟩ :=
      joinOuter_get?_trueEmpName (mergeForm x frows) (mergeTab x trows) j hn
    have hjt : (mergeTab x trows).get? j =
        some (mergeTabRow x j (trows.get ⟨j, hj⟩)) := by
      rw [mergeTab, mapIdxFrom_get?, List.get?_eq_get hj]
      simp
    have hit : (persistItems (joinOuter (mergeForm x frows) (mergeTab x trows))).get? j =
        some (mkItem j r) := by
      rw [persistItems, mapIdxFrom_get?, hr]
      simp
    refine ⟨mkItem j r, hit, ?_⟩
    show strOfOpt r.trueEmpName = _
    rw [hre, hjt]
    rfl

theorem mk_toList (s : String) : String.mk s.toList = s := by
  cases s with | mk d => rfl

theorem needsQuote_false_mem {f : List Char} (h : needsQuote f = false) :
    ∀ c ∈ f, ¬c = ',' ∧ ¬c = '"' ∧ ¬c = '\n' ∧ ¬c = '\r' := by
  intro c hc
  unfold needsQuote at h
  have hx := List.any_eq_false.mp h c hc
  refine ⟨?_, ?_, ?_, ?_⟩
  all_goals intro he
  all_goals apply hx
  all_goals rw [he]
  all_goals decide

theorem parseCsvGo_quote_eof (sn : Bool) (cur : List Char) (row : List (List Char))
    (acc : List (List (List Char))) :
    parseCsvGo true sn cur row acc ['"'] = acc ++ [row ++ [cur.reverse]] := by
  simp [parseCsvGo]

theorem parseCsvGo_quote_escape (sn : Bool) (cur : List Char) (row : List (List Char))
    (acc : List (List (List Char))) (cs : List Char) :
    parseCsvGo true sn cur row acc ('"' :: '"' :: cs) =
      parseCsvGo true true ('"' :: cur) row acc cs := by
  simp [parseCsvGo]

theorem parseCsvGo_quote_close (r : Char) (hr : ¬r = '"') (sn : Bool)
    (cur : List Char) (row : List (List Char)) (acc : List (List (List Char)))
    (rs : List Char) :
    parseCsvGo true sn cur row acc ('"' :: r :: rs) =
      parseCsvGo false true cur row acc (r :: rs) := by
  simp [parseCsvGo, hr]

theorem parseCsvGo_quote_lit (a : Char) (ha : ¬a = '"') (sn : Bool)
    (cur : List Char) (row : List (List Char)) (acc : List (List (List Char)))
    (cs : List Char) :
    parseCsvGo true sn cur row acc (a :: cs) =
      parseCsvGo true true (a :: cur) row acc cs := by
  cases cs with
  | nil => simp [parseCsvGo, ha]
  | cons b bs => simp [parseCsvGo, ha]

theorem parseCsvGo_open_quote (sn : Bool) (row : List (List Char))
    (acc : List (List (List Char))) (cs : List Char) :
    parseCsvGo false sn [] row acc ('"' :: cs) = parseCsvGo true true [] row acc cs := by
  cases cs with
  | nil => simp [parseCsvGo]
  | cons b bs => simp [parseCsvGo]

theorem parseCsvGo_comma (sn : Bool) (cur : List Char) (row : List (List Char))
    (acc : List (List (List Char))) (cs : List Char) :
    parseCsvGo false sn cur row acc (',' :: cs) =
      parseCsvGo false true [] (row ++ [cur.reverse]) acc cs := by
  cases cs with
  | nil => simp [parseCsvGo]
  | cons b bs => simp [parseCsvGo]

theorem parseCsvGo_term_flush (t : Char) (ht : t = '\n' ∨ t = '\r')
    (cur : List Char) (row : List (List Char)) (acc : List (List (List Char)))
    (cs : List Char) :
    parseCsvGo false true cur row acc (t :: cs) =
      parseCsvGo false false [] [] (acc ++ [row ++ [cur.reverse]]) cs := by
  rcases ht with h | h
  all_goals subst h
  all_goals cases cs with
  | nil => simp [parseCsvGo]
  | cons b bs => simp [parseCsvGo]

theorem parseCsvGo_term_skip (t : Char) (ht : t = '\n' ∨ t = '\r')
    (cur : List Char) (row : List (List Char)) (acc : List (List (List Char)))
    (cs : List Char) :
    parseCsvGo false false cur row acc (t :: cs) =
      parseCsvGo false false [] [] acc cs := by
  rcases ht with h | h
  all_goals subst h
  all_goals cases cs with
  | nil => simp [parseCsvGo]
  | cons b bs => simp [parseCsvGo]

theorem parseCsvGo_plain (a : Char) (h1 : ¬a = ',') (h2 : ¬a = '"')
    (h3 : ¬a = '\n') (h4 : ¬a = '\r') (sn : Bool) (cur : List Char)
    (row : List (List Char)) (acc : List (List (List Char))) (cs : List Char) :
    parseCsvGo false sn cur row acc (a :: cs) =
      parseCsvGo false true (a :: cur) row acc cs := by
  cases cs with
  | nil => simp [parseCsvGo, h1, h2, h3, h4]
  | cons b bs => simp [parseCsvGo, h1, h2, h3, h4]

theorem parseCsvGo_quoted (f : List Char) :
    ∀ (cur : List Char) (row : List (List Char)) (acc : List (List (List Char)))
      (rest : List Char), rest.head? ≠ some '"' →
      parseCsvGo true true cur row acc (escQ f ++ '"' :: rest) =
        parseCsvGo false true (f.reverse ++ cur) row acc rest := by
  induction f with
  | nil =>
    intro cur row acc rest hrest
    rw [escQ, List.nil_append, List.reverse_nil, List.nil_append]
    cases rest with
    | nil => rw [parseCsvGo_quote_eof]; rfl
    | cons r rs =>
      have hr : ¬r = '"' := fun he => hrest (by rw [he]; rfl)
      exact parseCsvGo_quote_close r hr true cur row acc rs
  | cons a t ih =>
    intro cur row acc rest hrest
    by_cases ha : a = '"'
    · subst ha
      rw [escQ, if_pos rfl]
      show parseCsvGo true true cur row acc ('"' :: '"' :: (escQ t ++ '"' :: rest)) = _
      rw [parseCsvGo_quote_escape, ih ('"' :: cur) row acc rest hrest]
      congr 1
      simp [List.reverse_cons, List.append_assoc]
    · rw [escQ, if_neg ha]
      show parseCsvGo true true cur row acc (a :: (escQ t ++ '"' :: rest)) = _
      rw [parseCsvGo_quote_lit a ha, ih (a :: cur) row acc rest hrest]
      congr 1
      simp [List.reverse_cons, List.append_assoc]

theorem parseCsvGo_unquoted (f : List Char) :
    ∀ (sn : Bool) (cur : List Char) (row : List (List Char))
      (acc : List (List (List Char))) (rest : List Char),
      (∀ c ∈ f, ¬c = ',' ∧ ¬c = '"' ∧ ¬c = '\n' ∧ ¬c = '\r') →
      parseCsvGo false sn cur row acc (f ++ rest) =
        parseCsvGo false (if f = [] then sn else true) (f.reverse ++ cur) row acc rest := by
  induction f with
  | nil =>
    intro sn cur row acc rest _
    simp
  | cons a t ih =>
    intro sn cur row acc rest hf
    obtain ⟨h1, h2, h3, h4⟩ := hf a (List.mem_cons_self a t)
    rw [List.cons_append, parseCsvGo_plain a h1 h2 h3 h4,
      ih true (a :: cur) row acc rest (fun c hc => hf c (List.mem_cons_of_mem a hc)),
      ite_self, if_neg (by simp)]
    congr 1
    simp [List.reverse_cons, List.append_assoc]

theorem parseCsvGo_wrField (f : List Char) (sn : Bool) (row : List (List Char))
    (acc : List (List (List Char))) (rest : List Char)
    (hrest : rest.head? ≠ some '"') :
    parseCsvGo false sn [] row acc (wrField f ++ rest) =
      parseCsvGo false (if f = [] then sn else true) f.reverse row acc rest := by
  by_cases hq : needsQuote f
  · have hfne : f ≠ [] := by
      intro he
      rw [he] at hq
      simp [needsQuote] at hq
    rw [wrField, if_pos hq]
    have e : ('"' :: (escQ f ++ ['"'])) ++ rest = '"' :: (escQ f ++ '"' :: rest) := by
      simp [List.append_assoc]
    rw [e, parseCsvGo_open_quote, parseCsvGo_quoted f [] row acc rest hrest,
      List.append_nil, if_neg hfne]
  · have hq' : needsQuote f = false := by simpa using hq
    rw [wrField, if_neg hq,
      parseCsvGo_unquoted f sn [] row acc rest (needsQuote_false_mem hq'),
      List.append_nil]

theorem parseCsvGo_fields (fs : List (List Char)) :
    ∀ (sn : Bool) (row : List (List Char)) (acc : List (List (List Char)))
      (rest : List Char),
      fs ≠ [] → (sn = true ∨ fs ≠ [[]]) →
      parseCsvGo false sn [] row acc (wrFieldsChars fs ++ '\r' :: rest) =
        parseCsvGo false false [] [] (acc ++ [row ++ fs]) rest := by
  induction fs with
  | nil =>
    intro sn row acc rest h _
    exact absurd rfl h
  | cons f gs ih =>
    intro sn row acc rest _ hsn
    cases gs with
    | nil =>
      rw [wrFieldsChars, parseCsvGo_wrField f sn row acc ('\r' :: rest) (by simp)]
      by_cases hf : f = []
      · have hsn' : sn = true := by
          rcases hsn with h | h
          · exact h
          · exact absurd (by rw [hf]) h
        rw [if_pos hf, hsn', parseCsvGo_term_flush '\r' (Or.inr rfl), hf]
        simp
      · rw [if_neg hf, parseCsvGo_term_flush '\r' (Or.inr rfl)]
        simp
    | cons g gs2 =>
      have hunf : wrFieldsChars (f :: g :: gs2) =
          wrField f ++ ',' :: wrFieldsChars (g :: gs2) := rfl
      rw [hunf]
      have e : (wrField f ++ ',' :: wrFieldsChars (g :: gs2)) ++ '\r' :: rest =
          wrField f ++ ',' :: (wrFieldsChars (g :: gs2) ++ '\r' :: rest) := by
        simp [List.append_assoc]
      rw [e, parseCsvGo_wrField f sn row acc _ (by simp), parseCsvGo_comma,
        List.reverse_reverse, ih true (row ++ [f]) acc rest (by simp) (Or.inl rfl)]
      simp [List.append_assoc]

theorem parseCsvGo_record (r : List (List Char)) (hne : r ≠ [])
    (acc : List (List (List Char))) (rest : List Char) :
    parseCsvGo false false [] [] acc (wrLineChars r ++ '\r' :: '\n' :: rest) =
      parseCsvGo false false [] [] (acc ++ [r]) rest := by
  by_cases hq : r = [[]]
  · rw [wrLineChars, if_pos hq, hq]
    show parseCsvGo false false [] [] acc ('"' :: '"' :: '\r' :: '\n' :: rest) = _
    rw [parseCsvGo_open_quote, parseCsvGo_quote_close '\r' (by decide),
      parseCsvGo_term_flush '\r' (Or.inr rfl), parseCsvGo_term_skip '\n' (Or.inl rfl)]
    simp
  · rw [wrLineChars, if_neg hq,
      parseCsvGo_fields r false [] acc ('\n' :: rest) hne (Or.inr hq),
      parseCsvGo_term_skip '\n' (Or.inl rfl), List.nil_append]

theorem parseCsvGo_writeCsv (rows : List (List String)) :
    ∀ acc, (∀ r ∈ rows, r ≠ []) →
      parseCsvGo false false [] [] acc (writeCsvChars rows) =
        acc ++ rows.map (List.map String.toList) := by
  induction rows with
  | nil =>
    intro acc _
    simp [writeCsvChars, parseCsvGo]
  | cons r rest ih =>
    intro acc h
    rw [writeCsvChars, wrLineS,
      parseCsvGo_record (r.map String.toList) (by
        intro hm
        exact (h r (List.mem_cons_self r rest)) (List.map_eq_nil_iff.mp hm))
        acc (writeCsvChars rest),
      ih (acc ++ [r.map String.toList]) (fun r' hr' => h r' (List.mem_cons_of_mem r hr'))]
    simp [List.append_assoc]

theorem parseCsvRaw_writeCsv (rows : List (List String))
    (h1 : ∀ r ∈ rows, r ≠ []) :
    parseCsvRaw (writeCsv rows) = rows := by
  unfold parseCsvRaw
  have ht : (writeCsv rows).toList = writeCsvChars rows := rfl
  rw [ht, parseCsvGo_writeCsv rows [] h1, List.nil_append, List.map_map]
  have hcomp : ∀ r ∈ rows, (List.map String.mk ∘ List.map String.toList) r = id r := by
    intro r _
    show (r.map String.toList).map String.mk = r
    rw [List.map_map]
    have hc2 : List.map (String.mk ∘ String.toList) r = List.map id r :=
      List.map_congr_left (fun s _ => mk_toList s)
    rw [hc2, List.map_id]
  rw [List.map_congr_left hcomp, List.map_id]

theorem naConvert_eq_some {f : String} (h : f ∉ naValues) : naConvert f = some f := by
  unfold naConvert
  rw [if_neg h]

/-- Claim C10 witness: with an empty correction answer, the persisted item
for the single line-item row stores the literal string `"None"` in its
corrected employer-name attribute. -/
theorem C10_absent_key_stores_None_witness :
    0 < ([⟨none, none, some "Acme", some "Clerk", none⟩] : List TabRow).length ∧
    ∃ it, (persistItems (joinOuter (mergeForm [] [])
        (mergeTab [] [⟨none, none, some "Acme", some "Clerk", none⟩]))).get? 0 =
      some it ∧ it.true_emp_name = "None" := by
  obtain ⟨-, -, -, h4⟩ :=
    C10_absent_key_stores_None [] [] [⟨none, none, some "Acme", some "Clerk", none⟩]
  obtain ⟨it, hit, he⟩ := h4 0 (by decide)
  refine ⟨by decide, it, hit, ?_⟩
  rw [he]
  decide
